import Mathlib

set_option maxRecDepth 10000

/-!
Shallow embedding of the go-fiber-starter account service
(repository `affan-maulana/go-fiber-starter`).

The embedding covers:
* the `User` domain entity (`internal/user/user_entity.go`),
* the GORM-backed user repository (`internal/user/user_repository.go`) and
  auth repository (`internal/auth/auth_repository.go`), modelled over an
  in-memory list of rows standing for the `users` table.  The GORM calls
  themselves are an external library; their documented semantics are used:
  the default scope excludes soft-deleted rows, `Unscoped` includes them,
  `Delete` marks the deletion timestamp, `Updates` with a struct applies
  only the non-zero fields, and the unique index on `email` makes inserts
  of a duplicated email fail with a duplicate-key error,
* the auth service (`SignUp`, `SignIn`, `validateSignUpData`,
  `getPhotoOrDefault`) and the user service (`GetUsers`, `GetUserByID`,
  `CreateUser`, `UpdateUser`, `DeleteUser`, `RestoreUser`,
  `CalculatePagination`).

External capabilities (bcrypt hashing, token generation) are passed to the
services as explicit function parameters; nondeterministic inputs
(`uuid.New()`, `time.Now()`) are passed as explicit arguments.  Timestamps
are naturals, with `0` standing for Go's zero `time.Time`.
-/

/-- Go `strings.ToLower`, on the character list (the inputs involved are
ASCII; `Char.toLower` lower-cases exactly the ASCII uppercase range). -/
def strToLower (s : String) : String := ⟨s.data.map Char.toLower⟩

/-- Go `strings.TrimSpace`: drop leading and trailing whitespace. -/
def strTrimSpace (s : String) : String :=
  ⟨((s.data.dropWhile Char.isWhitespace).reverse.dropWhile Char.isWhitespace).reverse⟩

/-- Does the character list start with `pat`? -/
def listHeadMatches : List Char → List Char → Bool
  | [], _ => true
  | _ :: _, [] => false
  | a :: as, b :: bs => a = b && listHeadMatches as bs

/-- Does the character list contain `pat` as a contiguous run? -/
def listFindSub (pat : List Char) : List Char → Bool
  | [] => listHeadMatches pat []
  | a :: rest => listHeadMatches pat (a :: rest) || listFindSub pat rest

/-- Go `strings.Contains s sub`. -/
def strContains (s sub : String) : Bool := listFindSub sub.data s.data

/-- The string form of `uuid.Nil`, the zero value of `uuid.UUID`. -/
def uuidNil : String := "00000000-0000-0000-0000-000000000000"

/-- Hexadecimal digit test, as `uuid.Parse` accepts them. -/
def isHexDigitChar (c : Char) : Bool :=
  c.isDigit || ('a' ≤ c && c ≤ 'f') || ('A' ≤ c && c ≤ 'F')

/-- Acceptance of `uuid.Parse` (external `github.com/google/uuid`) on the
canonical 8-4-4-4-12 textual form, the form the service's identifiers use.
The services call it only to validate an id before using it. -/
def uuidParseOk (s : String) : Bool :=
  s.data.length = 36 &&
  s.data.enum.all fun ic =>
    if ic.1 = 8 || ic.1 = 13 || ic.1 = 18 || ic.1 = 23 then ic.2 = '-'
    else isHexDigitChar ic.2

/-- The `User` domain entity from `internal/user/user_entity.go`.
Identifiers are the uuid's string form; times are naturals with `0` for
Go's zero `time.Time`; `deletedAt = none` models a nil `*time.Time`. -/
structure User where
  id : String
  name : String
  email : String
  password : String
  role : String
  provider : String
  photo : String
  verified : Bool
  createdAt : Nat
  updatedAt : Nat
  deletedAt : Option Nat
deriving DecidableEq, Repr

/-- The `users` table: the list of physical rows, in insertion order. -/
abbrev Store := List User

namespace UserRepo

/-- Message of `gorm.ErrRecordNotFound`. -/
def recordNotFound : String := "record not found"

/-- Error surfaced by GORM when an insert violates the unique index on
`email` (Postgres duplicate-key error text). -/
def duplicateKeyError : String :=
  "ERROR: duplicate key value violates unique constraint (SQLSTATE 23505)"

/-- Model of `AllowedSearchFields` from `internal/user/user_repository.go` lines
11-15: the fields free-text search may target. -/
def AllowedSearchFields (f : String) : Bool := f = "name" || f = "email"

/-- Model of `ListUsersQuery` from the user DTO file (query parameters of the list
endpoint).  `Page`/`PerPage` are Go `int`s, kept as integers so the
clamping of non-positive values is faithful. -/
structure ListUsersQuery where
  Page : Int
  PerPage : Int
  Search : String
  SearchBy : String
  Role : String
  Provider : String
  Verified : Option Bool
  ShowDeleted : Bool
deriving DecidableEq, Repr

/-- The WHERE-clause the repository's `GetUsers` assembles on the GORM
query builder (`user_repository.go` lines 67-95) before running it.
`searchClause = some (field, term)` records that `field ILIKE '%term%'`
was interpolated into the query; `none` means no search predicate was
added at all. -/
structure BuiltQuery where
  unscoped : Bool
  searchClause : Option (String × String)
  roleClause : Option String
  providerClause : Option String
  verifiedClause : Option Bool
deriving DecidableEq, Repr

/-- Query assembly of `GetUsers` (`user_repository.go` lines 67-95): the
search clause is added only when the search term and field are non-empty
and the field passes the `AllowedSearchFields` allow-list. -/
def BuildGetUsersQuery (q : ListUsersQuery) : BuiltQuery :=
  { unscoped := q.ShowDeleted
    searchClause :=
      if q.Search ≠ "" ∧ q.SearchBy ≠ "" ∧ AllowedSearchFields q.SearchBy then
        some (q.SearchBy, q.Search)
      else none
    roleClause := if q.Role ≠ "" then some q.Role else none
    providerClause := if q.Provider ≠ "" then some q.Provider else none
    verifiedClause := q.Verified }

/-- Value of an allow-listed column of a row (the only fields a search
clause can reach are `name` and `email`). -/
def searchColumn (u : User) (f : String) : String :=
  if f = "name" then u.name else if f = "email" then u.email else ""

/-- Postgres `column ILIKE '%term%'`: case-insensitive containment. -/
def iLike (column term : String) : Bool :=
  strContains (strToLower column) (strToLower term)

/-- Does a physical row satisfy the assembled WHERE clause?  The default
GORM scope excludes soft-deleted rows unless `Unscoped` was requested. -/
def rowMatches (bq : BuiltQuery) (u : User) : Bool :=
  (bq.unscoped || u.deletedAt = none) &&
  (match bq.searchClause with
   | none => true
   | some (f, term) => iLike (searchColumn u f) term) &&
  (match bq.roleClause with
   | none => true
   | some r => u.role = r) &&
  (match bq.providerClause with
   | none => true
   | some p => u.provider = p) &&
  (match bq.verifiedClause with
   | none => true
   | some v => u.verified = v)

/-- Insert a row into a list already sorted by `created_at DESC`. -/
def insertByCreatedAtDesc (u : User) : List User → List User
  | [] => [u]
  | v :: vs =>
    if u.createdAt ≤ v.createdAt then v :: insertByCreatedAtDesc u vs
    else u :: v :: vs

/-- Model of `Order("created_at DESC")`: sort rows by creation time, newest first. -/
def sortByCreatedAtDesc : List User → List User
  | [] => []
  | u :: us => insertByCreatedAtDesc u (sortByCreatedAtDesc us)

/-- The column list of `Select("id, name, email, role, photo, created_at")`
in `GetUsers`: fields outside the selection come back as zero values. -/
def selectListColumns (u : User) : User :=
  { id := u.id, name := u.name, email := u.email, role := u.role,
    password := "", provider := "", photo := u.photo, verified := false,
    createdAt := u.createdAt, updatedAt := 0, deletedAt := none }

/-- Model of `userRepository.GetUsers` (`user_repository.go` lines 54-120): apply
defaults, assemble the filters, count the matching rows pre-pagination,
then order by creation time descending, apply offset/limit and project the
selected columns. -/
def GetUsers (st : Store) (q : ListUsersQuery) : List User × Int :=
  let q := { q with Page := if q.Page ≤ 0 then 1 else q.Page,
                    PerPage := if q.PerPage ≤ 0 then 10 else q.PerPage }
  let bq := BuildGetUsersQuery q
  let rows := st.filter (rowMatches bq)
  let total : Int := rows.length
  let paged := ((sortByCreatedAtDesc rows).drop
      ((q.Page - 1) * q.PerPage).toNat).take q.PerPage.toNat
  (paged.map selectListColumns, total)

/-- Model of `userRepository.GetUserByID` (`user_repository.go` lines 122-137):
first row with the id, within the default scope unless `includeDeleted`. -/
def GetUserByID (st : Store) (id : String) (includeDeleted : Bool) :
    Except String User :=
  match st.find? (fun u => u.id = id && (includeDeleted || u.deletedAt = none)) with
  | none => .error recordNotFound
  | some u => .ok u

/-- Model of `userRepository.GetUserByEmail` (`user_repository.go` lines 139-147):
first row with the email, within the default scope. -/
def GetUserByEmail (st : Store) (email : String) : Except String User :=
  match st.find? (fun u => u.email = email && u.deletedAt = none) with
  | none => .error recordNotFound
  | some u => .ok u

/-- Model of `userRepository.CreateUser` (`user_repository.go` lines 149-165): the
insert fails with a duplicate-key error when the unique index on `email`
(or the primary key) is violated by an existing physical row. -/
def CreateUser (st : Store) (u : User) : Except String Store :=
  if st.any (fun v => v.email = u.email) || st.any (fun v => v.id = u.id) then
    .error duplicateKeyError
  else .ok (st ++ [u])

/-- GORM `Updates` with a struct value: only the non-zero fields of the
patch are written to the matched row. -/
def applyNonZeroUpdates (patch row : User) : User :=
  { id := if patch.id ≠ uuidNil then patch.id else row.id
    name := if patch.name ≠ "" then patch.name else row.name
    email := if patch.email ≠ "" then patch.email else row.email
    password := if patch.password ≠ "" then patch.password else row.password
    role := if patch.role ≠ "" then patch.role else row.role
    provider := if patch.provider ≠ "" then patch.provider else row.provider
    photo := if patch.photo ≠ "" then patch.photo else row.photo
    verified := if patch.verified then true else row.verified
    createdAt := if patch.createdAt ≠ 0 then patch.createdAt else row.createdAt
    updatedAt := if patch.updatedAt ≠ 0 then patch.updatedAt else row.updatedAt
    deletedAt := match patch.deletedAt with
      | some d => some d
      | none => row.deletedAt }

/-- Model of `userRepository.UpdateUser` (`user_repository.go` lines 167-183): set
the patch's `UpdatedAt` to the current time, update the rows matching the
id within the default scope, and report `record not found` when no row was
affected. -/
def UpdateUser (st : Store) (id : String) (patch : User) (now : Nat) :
    Except String Store :=
  let patch := { patch with updatedAt := now }
  if st.countP (fun u => u.id = id && u.deletedAt = none) = 0 then
    .error recordNotFound
  else
    .ok (st.map fun u =>
      if u.id = id && u.deletedAt = none then applyNonZeroUpdates patch u else u)

/-- Model of `userRepository.DeleteUser` (`user_repository.go` lines 185-197): soft
delete — mark the deletion timestamp on the active rows with the id, and
report `record not found` when no row was affected. -/
def DeleteUser (st : Store) (id : String) (now : Nat) : Except String Store :=
  if st.countP (fun u => u.id = id && u.deletedAt = none) = 0 then
    .error recordNotFound
  else
    .ok (st.map fun u =>
      if u.id = id && u.deletedAt = none then { u with deletedAt := some now } else u)

/-- Model of `userRepository.RestoreUser` (`user_repository.go` lines 199-211):
`Unscoped` update clearing `deleted_at` on every row with the id, with
`record not found` when no row matched. -/
def RestoreUser (st : Store) (id : String) : Except String Store :=
  if st.countP (fun u => u.id = id) = 0 then
    .error recordNotFound
  else
    .ok (st.map fun u => if u.id = id then { u with deletedAt := none } else u)

end UserRepo

namespace AuthRepo

/-- Model of `authRepository.GetUserByEmail` (`internal/auth/auth_repository.go`):
first row with the email within the default scope, like the user
repository's lookup. -/
def GetUserByEmail (st : Store) (email : String) : Except String User :=
  UserRepo.GetUserByEmail st email

/-- Model of `authRepository.CreateUser` (`internal/auth/auth_repository.go`): a
plain `db.Create` into the same `users` table, subject to the same unique
index; the error is returned untranslated. -/
def CreateUser (st : Store) (u : User) : Except String Store :=
  UserRepo.CreateUser st u

end AuthRepo

namespace AuthService

/-- Model of `SignUpData` from `internal/auth/auth_entity.go`. -/
structure SignUpData where
  Name : String
  Email : String
  Password : String
  PasswordConfirm : String
  Photo : String
deriving DecidableEq, Repr

/-- Model of `service.validateSignUpData` (auth service, lines 148-162): the first
failing check's message, or `none` when the data passes.  Go's `len` on a
string counts bytes, hence `utf8ByteSize`. -/
def validateSignUpData (d : SignUpData) : Option String :=
  if d.Name = "" then some "name is required"
  else if d.Email = "" then some "email is required"
  else if d.Password = "" then some "password is required"
  else if d.Password.utf8ByteSize < 8 then some "password must be at least 8 characters"
  else none

/-- Model of `service.getPhotoOrDefault` (auth service, lines 164-170). -/
def getPhotoOrDefault (photo : String) : String :=
  if photo = "" then "default.png" else photo

/-- Model of `service.SignUp` (auth service, lines 76-118).  `hash` is the external
`hashing.HashPassword` capability; `newId` and `now` stand for `uuid.New()`
and `time.Now()`.  Returns the created user and the updated table. -/
def SignUp (hash : String → Except String String) (newId : String) (now : Nat)
    (st : Store) (d : SignUpData) : Except String (User × Store) :=
  match validateSignUpData d with
  | some e => .error e
  | none =>
    if d.Password ≠ d.PasswordConfirm then .error "passwords do not match"
    else
      match hash d.Password with
      | .error e => .error ("failed to hash password: " ++ e)
      | .ok hashedPassword =>
        let u : User :=
          { id := newId, name := d.Name,
            email := strToLower (strTrimSpace d.Email),
            password := hashedPassword, role := "user", provider := "local",
            photo := getPhotoOrDefault d.Photo, verified := false,
            createdAt := now, updatedAt := now, deletedAt := none }
        match AuthRepo.CreateUser st u with
        | .error err =>
          if strContains err "duplicate" || strContains err "unique" then
            .error "user with that email already exists"
          else .error ("failed to create user: " ++ err)
        | .ok st' => .ok (u, st')

/-- Model of `service.SignIn` (auth service, lines 120-140).  `verify` is the
external `hashing.VerifyPassword` capability (`true` = match); `tokenRes`
the outcome of `hashing.GenerateToken`.  The triple mirrors Go's
`(token, user, err)` returns: an error leaves the token empty and the
user absent. -/
def SignIn (verify : String → String → Bool) (tokenRes : Except String String)
    (st : Store) (email password : String) :
    String × Option User × Option String :=
  match AuthRepo.GetUserByEmail st (strToLower (strTrimSpace email)) with
  | .error _ => ("", none, some "invalid email or password")
  | .ok u =>
    if verify u.password password then
      match tokenRes with
      | .error e => ("", none, some ("failed to generate token: " ++ e))
      | .ok t => (t, some u, none)
    else ("", none, some "invalid email or password")

end AuthService

namespace UserService

/-- Model of `CreateUserData` from `internal/user/user_entity.go`. -/
structure CreateUserData where
  Name : String
  Email : String
  Password : String
  Role : String
  Provider : String
  Photo : String
  Verified : Bool
deriving DecidableEq, Repr

/-- Model of `UpdateUserData` from `internal/user/user_entity.go`. -/
structure UpdateUserData where
  Name : String
  Email : String
  Role : String
  Photo : String
  Verified : Bool
deriving DecidableEq, Repr

/-- Model of `service.GetUsers` (user service, lines 46-57): default the pagination
values, then delegate to the repository.  Out-of-range values are clamped,
never rejected. -/
def GetUsers (st : Store) (q : UserRepo.ListUsersQuery) : List User × Int :=
  let q := { q with
    Page := if q.Page ≤ 0 then 1 else q.Page,
    PerPage := if q.PerPage ≤ 0 ∨ 100 < q.PerPage then 10 else q.PerPage }
  UserRepo.GetUsers st q

/-- Model of `service.GetUserByID` (user service, lines 59-75): validate the id,
then look the user up within the default scope, translating
`gorm.ErrRecordNotFound` to `user not found`. -/
def GetUserByID (st : Store) (id : String) : Except String User :=
  if ¬ uuidParseOk id then .error "invalid user ID format"
  else
    match UserRepo.GetUserByID st id false with
    | .error e =>
      if e = UserRepo.recordNotFound then .error "user not found" else .error e
    | .ok u => .ok u

/-- Model of `service.CreateUser` (user service, lines 77-138): validations, an
advisory duplicate-email pre-check via `GetUserByEmail`, defaulting of
role/provider/photo, then the insert.  The password is stored as
submitted — the source marks this line `// In real app, this should be
hashed`. -/
def CreateUser (st : Store) (newId : String) (now : Nat)
    (data : CreateUserData) : Except String Store :=
  if data.Name = "" then .error "name is required"
  else if data.Email = "" then .error "email is required"
  else if data.Password = "" then .error "password is required"
  else if data.Password.utf8ByteSize < 8 then
    .error "password must be at least 8 characters"
  else
    match UserRepo.GetUserByEmail st data.Email with
    | .ok _ => .error "user with that email already exists"
    | .error e =>
      if e ≠ UserRepo.recordNotFound then .error e
      else
        let u : User :=
          { id := newId, name := data.Name, email := data.Email,
            password := data.Password,
            role := if data.Role = "" then "user" else data.Role,
            provider := if data.Provider = "" then "local" else data.Provider,
            photo := if data.Photo = "" then "default.png" else data.Photo,
            verified := data.Verified,
            createdAt := now, updatedAt := now, deletedAt := none }
        UserRepo.CreateUser st u

/-- Model of `service.UpdateUser` (user service, lines 140-202): validate id and
required fields, check existence within the default scope, check the new
email is not taken by a different user, default empty role/photo, then
send the patch (only name, role, photo and the update time are non-zero)
to the repository.  `nowSvc`/`nowRepo` are the service's and repository's
`time.Now()` calls. -/
def UpdateUser (st : Store) (id : String) (nowSvc nowRepo : Nat)
    (data : UpdateUserData) : Except String Store :=
  if ¬ uuidParseOk id then .error "invalid user ID format"
  else if data.Name = "" then .error "name is required"
  else if data.Email = "" then .error "email is required"
  else
    match UserRepo.GetUserByID st id false with
    | .error e =>
      if e = UserRepo.recordNotFound then .error "user not found" else .error e
    | .ok existingUser =>
      let emailCheck : Option String :=
        if data.Email ≠ existingUser.email then
          match UserRepo.GetUserByEmail st data.Email with
          | .ok emailUser =>
            if emailUser.id ≠ existingUser.id then
              some "email is already taken by another user"
            else none
          | .error e =>
            if e ≠ UserRepo.recordNotFound then some e else none
        else none
      match emailCheck with
      | some e => .error e
      | none =>
        let patch : User :=
          { id := uuidNil, name := data.Name, email := "", password := "",
            role := if data.Role = "" then "user" else data.Role,
            provider := "",
            photo := if data.Photo = "" then "default.png" else data.Photo,
            verified := false, createdAt := 0, updatedAt := nowSvc,
            deletedAt := none }
        match UserRepo.UpdateUser st id patch nowRepo with
        | .error e =>
          if e = UserRepo.recordNotFound then .error "user not found" else .error e
        | .ok st' => .ok st'

/-- Model of `service.DeleteUser` (user service, lines 204-229): validate the id,
require the user to exist within the default scope, then soft delete. -/
def DeleteUser (st : Store) (id : String) (now : Nat) : Except String Store :=
  if ¬ uuidParseOk id then .error "invalid user ID format"
  else
    match UserRepo.GetUserByID st id false with
    | .error e =>
      if e = UserRepo.recordNotFound then .error "user not found" else .error e
    | .ok _ =>
      match UserRepo.DeleteUser st id now with
      | .error e =>
        if e = UserRepo.recordNotFound then .error "user not found" else .error e
      | .ok st' => .ok st'

/-- Model of `service.RestoreUser` (user service, lines 231-267): validate the id,
look the user up including soft-deleted rows, fail when it is not deleted,
clear the deletion timestamp, and return the refreshed account. -/
def RestoreUser (st : Store) (id : String) : Except String (User × Store) :=
  if ¬ uuidParseOk id then .error "invalid user ID format"
  else
    match UserRepo.GetUserByID st id true with
    | .error e =>
      if e = UserRepo.recordNotFound then .error "user not found" else .error e
    | .ok u =>
      if u.deletedAt = none then .error "user is not deleted"
      else
        match UserRepo.RestoreUser st id with
        | .error e =>
          if e = UserRepo.recordNotFound then .error "user not found" else .error e
        | .ok st' =>
          match UserRepo.GetUserByID st' id false with
          | .error e => .error e
          | .ok restoredUser => .ok (restoredUser, st')

end UserService

/-- A concrete stand-in for the bcrypt hash capability, used by witnesses:
prepends a bcrypt-style header, so the digest never equals its input. -/
def hashFix (p : String) : Except String String := .ok ("$2a$10$" ++ p)

/-- The matching stand-in for the verify capability. -/
def verifyFix (digest p : String) : Bool := digest = "$2a$10$" ++ p

/-- A concrete well-formed identifier for witnesses. -/
def annId : String := "1b4e28ba-2fa1-11d2-883f-0016d3cca427"

/-- A second concrete well-formed identifier for witnesses. -/
def bobId : String := "2c5f39cb-3fb2-22e3-994f-1127e4ddb538"

/-- A concrete stored account for witnesses. -/
def annUser : User :=
  { id := annId, name := "Ann", email := "ann@example.com",
    password := "$2a$10$longpass1", role := "user", provider := "local",
    photo := "default.png", verified := false, createdAt := 5, updatedAt := 5,
    deletedAt := none }

/-- A concrete query searching by the unlisted field `role`, for the C10
witness. -/
def roleSearchQuery : UserRepo.ListUsersQuery :=
  { Page := 1, PerPage := 10, Search := "admin", SearchBy := "role",
    Role := "", Provider := "", Verified := none, ShowDeleted := false }

/-- Ann's sign-up request (the spec's example scenario). -/
def annSignUpData : AuthService.SignUpData :=
  { Name := "Ann", Email := "ANN@Example.com", Password := "longpass1",
    PasswordConfirm := "longpass1", Photo := "" }

/-- A second registration whose email normalizes to Ann's. -/
def annSignUpDataTwin : AuthService.SignUpData :=
  { Name := "Ann2", Email := " ann@EXAMPLE.com ", Password := "otherpass9",
    PasswordConfirm := "otherpass9", Photo := "" }

/-- An administrative creation request for witnesses. -/
def bobCreateData : UserService.CreateUserData :=
  { Name := "Bob", Email := "bob@example.com", Password := "longpass1",
    Role := "", Provider := "", Photo := "", Verified := false }

/-- A second administrative creation request with the same email. -/
def bobCreateDataTwin : UserService.CreateUserData :=
  { Name := "Bobby", Email := "bob@example.com", Password := "longpass2",
    Role := "", Provider := "", Photo := "", Verified := false }

/-- The row the administrative path creates from `bobCreateData`. -/
def bobRow : User :=
  { id := annId, name := "Bob", email := "bob@example.com",
    password := "longpass1", role := "user", provider := "local",
    photo := "default.png", verified := false, createdAt := 5, updatedAt := 5,
    deletedAt := none }

/-- The generic-update request used by the C7 witness. -/
def annUpdateData : UserService.UpdateUserData :=
  { Name := "Ann2", Email := "ann@example.com", Role := "", Photo := "",
    Verified := false }

/-- Fuel-driven floor of the base-2 logarithm; fuel `n` suffices for
input `n`, and the recursion only descends `log2 n` times. -/
def natLog2Aux : Nat → Nat → Nat
  | 0, _ => 0
  | fuel+1, n => if n ≤ 1 then 0 else natLog2Aux fuel (n / 2) + 1

/-- Floor of the base-2 logarithm (`0` for `0`). -/
def natLog2 (n : Nat) : Nat := natLog2Aux n n

/-- Does `2 ^ k ≤ a / b` hold? -/
def pow2LeDiv (k : Int) (a b : Nat) : Bool :=
  if 0 ≤ k then 2 ^ k.toNat * b ≤ a else b ≤ 2 ^ (-k).toNat * a

/-- The binade of `a / b`: the `k` with `2 ^ k ≤ a / b < 2 ^ (k + 1)`. -/
def binadeOf (a b : Nat) : Int :=
  let d : Int := (natLog2 a : Int) - (natLog2 b : Int)
  if pow2LeDiv d a b then d else d - 1

/-- A nonnegative binary64 value, represented exactly: the value is
`sig * 2 ^ (exp - 52)`. -/
structure F64 where
  sig : Nat
  exp : Int
deriving DecidableEq, Repr

/-- The exact rational value of the represented float. -/
def F64.val (f : F64) : ℚ := (f.sig : ℚ) * (2:ℚ) ^ (f.exp - 52)

/-- Go `math.Ceil` followed by the `int(...)` conversion: the exact integer
ceiling of the represented value (for every binary64 value of the
magnitudes involved the ceiling is itself exactly representable and fits
the `int` range, so this composition is the mathematical ceiling). -/
def F64.ceilInt (f : F64) : Int :=
  if 52 ≤ f.exp then (f.sig : Int) * 2 ^ (f.exp - 52).toNat
  else ((f.sig + 2 ^ (52 - f.exp).toNat - 1) / 2 ^ (52 - f.exp).toNat : Nat)

/-- Round `N / D` to the nearest integer, ties to even. -/
def rnInt (N D : Nat) : Nat :=
  let m0 := N / D
  let r := N % D
  if 2 * r < D then m0
  else if D < 2 * r then m0 + 1
  else if m0 % 2 = 0 then m0 else m0 + 1

/-- Round `a / b` (`b ≥ 1`) to the binary64 grid: significand rounded to
nearest (ties to even) at the granularity `2 ^ (binade - 52)`. -/
def rnDivNat (a b : Nat) : F64 :=
  if a = 0 then { sig := 0, exp := 0 }
  else
    let k := binadeOf a b
    let s : Int := 52 - k
    if 0 ≤ s then { sig := rnInt (a * 2 ^ s.toNat) b, exp := k }
    else { sig := rnInt a (b * 2 ^ (-s).toNat), exp := k }

/-- Binary64 division: round the exact quotient of the represented
values. -/
def F64.div (f g : F64) : F64 :=
  let e := f.exp - g.exp
  if 0 ≤ e then rnDivNat (f.sig * 2 ^ e.toNat) g.sig
  else rnDivNat f.sig (g.sig * 2 ^ (-e).toNat)

/-- Binary64 conversion of a natural number (rounds above `2 ^ 53`). -/
def F64.ofNat (n : Nat) : F64 := rnDivNat n 1

/-- Model of `service.CalculatePagination` (user service, lines 269-275):
`int(math.Ceil(float64(total) / float64(perPage)))` with `perPage ≤ 0`
defaulted to 10, evaluated in exact binary64 semantics.  The claims range
over non-negative totals, so the embedding takes `total : Nat`; `page` is
accepted and ignored exactly as in the source. -/
def UserService.CalculatePagination (total : Nat) (page perPage : Int) : Int :=
  let pp := if perPage ≤ 0 then 10 else perPage
  ((F64.ofNat total).div (F64.ofNat pp.toNat)).ceilInt

theorem listFind?_append_of_none {α : Type} {p : α → Bool} {l1 l2 : List α}
    (h : l1.find? p = none) : (l1 ++ l2).find? p = l2.find? p := by
  induction l1 with
  | nil => rfl
  | cons a l ih =>
    cases hpa : p a with
    | true => simp [List.find?_cons_of_pos _ hpa] at h
    | false =>
      rw [List.find?_cons_of_neg _ (by simp [hpa])] at h
      rw [List.cons_append, List.find?_cons_of_neg _ (by simp [hpa])]
      exact ih h

/-- C8: for every list query the service proceeds with page 1 whenever the
requested page is ≤ 0, with perPage 10 whenever the requested perPage is
≤ 0 or over 100, and with the requested values otherwise; the query is
forwarded to the repository with all other fields untouched — out-of-range
values are silently clamped, never rejected with an error. -/
theorem C8_list_clamps_pagination (st : Store) (q : UserRepo.ListUsersQuery) :
    ∃ q' : UserRepo.ListUsersQuery,
      UserService.GetUsers st q = UserRepo.GetUsers st q' ∧
      q'.Page = (if q.Page ≤ 0 then 1 else q.Page) ∧
      q'.PerPage = (if q.PerPage ≤ 0 ∨ 100 < q.PerPage then 10 else q.PerPage) ∧
      q'.Search = q.Search ∧ q'.SearchBy = q.SearchBy ∧ q'.Role = q.Role ∧
      q'.Provider = q.Provider ∧ q'.Verified = q.Verified ∧
      q'.ShowDeleted = q.ShowDeleted :=
  ⟨_, rfl, rfl, rfl, rfl, rfl, rfl, rfl, rfl, rfl⟩

/-- C3: for every email and password, `SignIn` returns the identical error
value `invalid email or password`, with an empty token and no account,
both when no account with that email exists and when the account exists
but the password fails verification against the stored digest. -/
theorem C3_signin_uniform_error (verify : String → String → Bool)
    (tokenRes : Except String String) (st : Store) (email password : String) :
    (∀ e, AuthRepo.GetUserByEmail st (strToLower (strTrimSpace email)) = .error e →
      AuthService.SignIn verify tokenRes st email password =
        ("", none, some "invalid email or password")) ∧
    (∀ u, AuthRepo.GetUserByEmail st (strToLower (strTrimSpace email)) = .ok u →
      verify u.password password = false →
      AuthService.SignIn verify tokenRes st email password =
        ("", none, some "invalid email or password")) := by
  constructor
  · intro e h
    unfold AuthService.SignIn
    rw [h]
  · intro u h hv
    unfold AuthService.SignIn
    rw [h]
    simp [hv]

/-- C3 witness: at a concrete store holding only Ann's account, a sign-in
with an unknown email and one with Ann's email but a wrong password both
yield the exact uniform failure triple. -/
theorem C3_signin_uniform_error_witness :
    AuthService.SignIn verifyFix (.ok "tok") [annUser] "who@example.com" "longpass1" =
      ("", none, some "invalid email or password") ∧
    AuthService.SignIn verifyFix (.ok "tok") [annUser] "ann@example.com" "wrongpass" =
      ("", none, some "invalid email or password") :=
  ⟨(C3_signin_uniform_error verifyFix (.ok "tok") [annUser] "who@example.com"
      "longpass1").1 UserRepo.recordNotFound rfl,
   (C3_signin_uniform_error verifyFix (.ok "tok") [annUser] "ann@example.com"
      "wrongpass").2 annUser rfl rfl⟩

/-- C4: every `SignUp` input that passes validation (non-empty
name/email/password, password of at least 8 bytes, password equal to its
confirmation) does pass `validateSignUpData`, and any account it creates
has its email trimmed and lowercased, role `user`, provider `local`,
`verified = false`, the supplied photo or `default.png` when empty, and
both timestamps equal to the creation time. -/
theorem C4_signup_success_fields (hash : String → Except String String)
    (newId : String) (now : Nat) (st : Store) (d : AuthService.SignUpData)
    (hName : d.Name ≠ "") (hEmail : d.Email ≠ "") (hPw : d.Password ≠ "")
    (hLen : 8 ≤ d.Password.utf8ByteSize)
    (hConf : d.Password = d.PasswordConfirm) :
    AuthService.validateSignUpData d = none ∧
    ∀ u st', AuthService.SignUp hash newId now st d = .ok (u, st') →
      u.email = strToLower (strTrimSpace d.Email) ∧ u.role = "user" ∧
      u.provider = "local" ∧ u.verified = false ∧
      u.photo = (if d.Photo = "" then "default.png" else d.Photo) ∧
      u.createdAt = now ∧ u.updatedAt = now := by
  have hv : AuthService.validateSignUpData d = none := by
    unfold AuthService.validateSignUpData
    rw [if_neg hName, if_neg hEmail, if_neg hPw, if_neg (by omega)]
  refine ⟨hv, ?_⟩
  intro u st' h
  unfold AuthService.SignUp at h
  rw [hv] at h
  rw [if_neg (by simp [hConf])] at h
  cases hh : hash d.Password with
  | error e => rw [hh] at h; simp at h
  | ok hp =>
    rw [hh] at h
    dsimp only at h
    split at h
    · split at h <;> simp at h
    · rw [Except.ok.injEq, Prod.mk.injEq] at h
      obtain ⟨hu, -⟩ := h
      subst hu
      exact ⟨rfl, rfl, rfl, rfl, rfl, rfl, rfl⟩

/-- C4 witness: the spec's example scenario — registering Ann with email
`ANN@Example.com` stores `ann@example.com` with all the default fields. -/
theorem C4_signup_success_fields_witness :
    let d : AuthService.SignUpData :=
      { Name := "Ann", Email := "ANN@Example.com", Password := "longpass1",
        PasswordConfirm := "longpass1", Photo := "" }
    AuthService.validateSignUpData d = none ∧
    ∀ u st', AuthService.SignUp hashFix annId 5 [] d = .ok (u, st') →
      u.email = strToLower (strTrimSpace d.Email) ∧ u.role = "user" ∧
      u.provider = "local" ∧ u.verified = false ∧
      u.photo = (if d.Photo = "" then "default.png" else d.Photo) ∧
      u.createdAt = 5 ∧ u.updatedAt = 5 :=
  C4_signup_success_fields hashFix annId 5 []
    { Name := "Ann", Email := "ANN@Example.com", Password := "longpass1",
      PasswordConfirm := "longpass1", Photo := "" }
    (by decide) (by decide) (by decide) (by decide) rfl

/-- C1: the claim asserts that on both creation paths the password handed
to the repository never equals the submitted plaintext.  The auth `SignUp`
hashes, but the user service's administrative `CreateUser` stores
`data.Password` verbatim (its own comment says it should be hashed):
evaluating the code at the failing input, the row created for Ann carries
exactly the submitted plaintext password. -/
theorem C1_admin_create_stores_plaintext :
    UserService.CreateUser []
      annId 5
      { Name := "Ann", Email := "ann@example.com", Password := "longpass1",
        Role := "", Provider := "", Photo := "", Verified := false } =
      .ok [{ id := annId, name := "Ann", email := "ann@example.com",
             password := "longpass1", role := "user", provider := "local",
             photo := "default.png", verified := false, createdAt := 5,
             updatedAt := 5, deletedAt := none }] ∧
    ({ Name := "Ann", Email := "ann@example.com", Password := "longpass1",
       Role := "", Provider := "", Photo := "", Verified := false :
       UserService.CreateUserData }).Password = "longpass1" :=
  ⟨rfl, rfl⟩

/-- C10: for every list query whose `SearchBy` field is outside the
allow-list, the repository's `GetUsers` adds no search clause to the query
it builds — the unlisted field name is never interpolated — and the search
term has no effect on the returned page or the total count. -/
theorem C10_search_outside_allowlist_ignored (st : Store)
    (q : UserRepo.ListUsersQuery)
    (h : UserRepo.AllowedSearchFields q.SearchBy = false) :
    (UserRepo.BuildGetUsersQuery q).searchClause = none ∧
    ∀ s', UserRepo.GetUsers st q = UserRepo.GetUsers st { q with Search := s' } := by
  constructor
  · unfold UserRepo.BuildGetUsersQuery
    simp [h]
  · intro s'
    have hbq : ∀ s'' p pp,
        UserRepo.BuildGetUsersQuery
          { Page := p, PerPage := pp, Search := s'', SearchBy := q.SearchBy,
            Role := q.Role, Provider := q.Provider, Verified := q.Verified,
            ShowDeleted := q.ShowDeleted } =
        UserRepo.BuildGetUsersQuery
          { Page := p, PerPage := pp, Search := q.Search, SearchBy := q.SearchBy,
            Role := q.Role, Provider := q.Provider, Verified := q.Verified,
            ShowDeleted := q.ShowDeleted } := by
      intro s'' p pp
      unfold UserRepo.BuildGetUsersQuery
      simp [h]
    unfold UserRepo.GetUsers
    dsimp only
    rw [hbq s']

/-- C10 witness: searching by the unlisted field `role` at a concrete
store: no search clause is built and changing the term changes nothing. -/
theorem C10_search_outside_allowlist_ignored_witness :
    (UserRepo.BuildGetUsersQuery roleSearchQuery).searchClause = none ∧
    UserRepo.GetUsers [annUser] roleSearchQuery =
      UserRepo.GetUsers [annUser] { roleSearchQuery with Search := "zzz" } :=
  ⟨(C10_search_outside_allowlist_ignored [annUser] roleSearchQuery rfl).1,
   (C10_search_outside_allowlist_ignored [annUser] roleSearchQuery rfl).2 "zzz"⟩

/-- Dissection of a successful `SignUp`: the created account carries the
normalized email, is active, is appended to the table, and no prior row
shared its email (otherwise the unique index would have rejected it). -/
theorem signUp_ok_shape {hash : String → Except String String} {newId : String}
    {now : Nat} {st : Store} {d : AuthService.SignUpData} {u : User} {st' : Store}
    (h : AuthService.SignUp hash newId now st d = .ok (u, st')) :
    u.email = strToLower (strTrimSpace d.Email) ∧ u.deletedAt = none ∧
    st' = st ++ [u] ∧ ∀ v ∈ st, v.email ≠ u.email := by
  unfold AuthService.SignUp at h
  split at h
  · simp at h
  · split at h
    · simp at h
    · split at h
      · simp at h
      · dsimp only at h
        split at h
        · split at h <;> simp at h
        next st2 heq =>
          rw [Except.ok.injEq, Prod.mk.injEq] at h
          obtain ⟨hu, hst⟩ := h
          unfold AuthRepo.CreateUser UserRepo.CreateUser at heq
          split at heq
          · simp at heq
          next hcond =>
            rw [Except.ok.injEq] at heq
            subst hu
            refine ⟨rfl, rfl, by rw [← hst, ← heq], ?_⟩
            intro v hv hve
            apply hcond
            simp only [Bool.or_eq_true, List.any_eq_true]
            exact Or.inl ⟨v, hv, by simp [hve]⟩

/-- An insert whose email an existing physical row already holds fails
with the duplicate-key error. -/
theorem createUser_email_dup {st : Store} {u : User} (v : User)
    (hv : v ∈ st) (he : v.email = u.email) :
    AuthRepo.CreateUser st u = .error UserRepo.duplicateKeyError := by
  unfold AuthRepo.CreateUser UserRepo.CreateUser
  rw [if_pos]
  simp only [Bool.or_eq_true, List.any_eq_true]
  exact Or.inl ⟨v, hv, by simp [he]⟩

/-- Dissection of a successful repository insert: the row is appended and
no prior physical row held its email. -/
theorem repoCreateUser_ok_shape {st : Store} {u : User} {st1 : Store}
    (h : UserRepo.CreateUser st u = .ok st1) :
    st1 = st ++ [u] ∧ ∀ v ∈ st, v.email ≠ u.email := by
  unfold UserRepo.CreateUser at h
  split at h
  · simp at h
  next hcond =>
    rw [Except.ok.injEq] at h
    refine ⟨h.symm, ?_⟩
    intro v hv hve
    apply hcond
    simp only [Bool.or_eq_true, List.any_eq_true]
    exact Or.inl ⟨v, hv, by simp [hve]⟩

/-- Dissection of a successful administrative `CreateUser`: the created
row carries the submitted email, is active, is appended to the table, the
email is non-empty, and no prior active row held that email (the advisory
pre-check passed). -/
theorem userCreate_ok_shape {st : Store} {id : String} {now : Nat}
    {data : UserService.CreateUserData} {st1 : Store}
    (h : UserService.CreateUser st id now data = .ok st1) :
    ∃ u : User, u.email = data.Email ∧ u.deletedAt = none ∧ st1 = st ++ [u] ∧
      data.Email ≠ "" ∧
      ∀ v ∈ st, ¬(v.email = data.Email ∧ v.deletedAt = none) := by
  unfold UserService.CreateUser at h
  split at h
  · simp at h
  · split at h
    · simp at h
    next hemail =>
      split at h
      · simp at h
      · split at h
        · simp at h
        · split at h
          next found heq => simp at h
          next e heq =>
            split at h
            · simp at h
            next hne =>
              obtain ⟨hst, -⟩ := repoCreateUser_ok_shape h
              refine ⟨_, rfl, rfl, hst, hemail, ?_⟩
              unfold UserRepo.GetUserByEmail at heq
              cases hf : st.find? fun v => v.email = data.Email && v.deletedAt = none with
              | some w => rw [hf] at heq; simp at heq
              | none =>
                intro v hv
                have hv' := List.find?_eq_none.mp hf v hv
                simpa using hv'

/-- C2: for every two registrations with the same normalized email against
the same store, the second attempt fails with the duplicate-email conflict
error: the auth service translates the storage unique-constraint violation
(error text containing `duplicate` or `unique`) into it, and in the user
service the advisory pre-check through `GetUserByEmail` also reports it. -/
theorem C2_duplicate_email_conflict :
    (∀ (hash : String → Except String String) (st st1 : Store)
       (d1 d2 : AuthService.SignUpData) (id1 id2 : String) (t1 t2 : Nat)
       (u1 : User),
       AuthService.SignUp hash id1 t1 st d1 = .ok (u1, st1) →
       strToLower (strTrimSpace d2.Email) = strToLower (strTrimSpace d1.Email) →
       AuthService.validateSignUpData d2 = none →
       d2.Password = d2.PasswordConfirm →
       (∃ h2, hash d2.Password = .ok h2) →
       AuthService.SignUp hash id2 t2 st1 d2 =
         .error "user with that email already exists") ∧
    (∀ (st st1 : Store) (data1 data2 : UserService.CreateUserData)
       (id1 id2 : String) (t1 t2 : Nat),
       UserService.CreateUser st id1 t1 data1 = .ok st1 →
       data2.Email = data1.Email →
       data2.Name ≠ "" → data2.Password ≠ "" →
       8 ≤ data2.Password.utf8ByteSize →
       UserService.CreateUser st1 id2 t2 data2 =
         .error "user with that email already exists") := by
  constructor
  · intro hash st st1 d1 d2 id1 id2 t1 t2 u1 h1 hEm hv2 hc2 hh
    obtain ⟨h2, hh2⟩ := hh
    obtain ⟨he1, -, hst1, -⟩ := signUp_ok_shape h1
    unfold AuthService.SignUp
    rw [hv2]
    dsimp only
    rw [if_neg (by simp [hc2]), hh2]
    dsimp only
    rw [createUser_email_dup u1 (by simp [hst1]) (he1.trans hEm.symm)]
    rfl
  · intro st st1 data1 data2 id1 id2 t1 t2 h1 hEm hName2 hPw2 hLen2
    obtain ⟨u, hue, hud, hst1, hE1ne, hall⟩ := userCreate_ok_shape h1
    unfold UserService.CreateUser
    rw [if_neg hName2]
    rw [if_neg (show ¬(data2.Email = "") by rw [hEm]; exact hE1ne)]
    rw [if_neg hPw2]
    rw [if_neg (by omega)]
    have hnone : (st.find? fun v => v.email = data2.Email && v.deletedAt = none) = none := by
      apply List.find?_eq_none.mpr
      intro x hx
      have hx' := hall x hx
      simp only [hEm]
      simpa using hx'
    have hpu : (u.email = data2.Email && u.deletedAt = none) = true := by
      simp [hue, hEm, hud]
    have hfind : (st1.find? fun v => v.email = data2.Email && v.deletedAt = none) = some u := by
      rw [hst1, listFind?_append_of_none hnone]
      exact List.find?_cons_of_pos _ hpu
    have hget : UserRepo.GetUserByEmail st1 data2.Email = .ok u := by
      unfold UserRepo.GetUserByEmail
      rw [hfind]
    rw [hget]

/-- C2 witness: a second sign-up normalizing to Ann's stored email fails
with the conflict error, and so does a second administrative creation with
Bob's email. -/
theorem C2_duplicate_email_conflict_witness :
    AuthService.SignUp hashFix bobId 6 [annUser] annSignUpDataTwin =
      .error "user with that email already exists" ∧
    UserService.CreateUser [bobRow] bobId 6 bobCreateDataTwin =
      .error "user with that email already exists" :=
  ⟨C2_duplicate_email_conflict.1 hashFix [] [annUser] annSignUpData
      annSignUpDataTwin annId bobId 5 6 annUser rfl rfl rfl rfl
      ⟨"$2a$10$otherpass9", rfl⟩,
   C2_duplicate_email_conflict.2 [] [bobRow] bobCreateData bobCreateDataTwin
      annId bobId 5 6 rfl rfl (by decide) (by decide) (by decide)⟩

/-- Dissection of a successful soft delete: the id parsed, some active row
with that id existed, and the final table marks every active row with that
id with the deletion time. -/
theorem deleteUser_ok_shape {st : Store} {id : String} {now : Nat} {st' : Store}
    (h : UserService.DeleteUser st id now = .ok st') :
    uuidParseOk id = true ∧ (∃ w ∈ st, w.id = id ∧ w.deletedAt = none) ∧
    st' = st.map fun u =>
      if u.id = id && u.deletedAt = none then { u with deletedAt := some now }
      else u := by
  unfold UserService.DeleteUser at h
  split at h
  · simp at h
  next hid =>
    split at h
    next e heq => split at h <;> simp at h
    next w heq =>
      split at h
      next e heq2 => split at h <;> simp at h
      next st2 heq2 =>
        rw [Except.ok.injEq] at h
        subst h
        unfold UserRepo.DeleteUser at heq2
        split at heq2
        · simp at heq2
        next hcount =>
          rw [Except.ok.injEq] at heq2
          have hpos : 0 < st.countP fun u => u.id = id && u.deletedAt = none :=
            Nat.pos_of_ne_zero hcount
          obtain ⟨w', hw', hp⟩ := List.countP_pos_iff.mp hpos
          simp only [Bool.and_eq_true, decide_eq_true_eq] at hp
          exact ⟨not_not.mp hid, ⟨w', hw', hp⟩, heq2.symm⟩

/-- C5: after a successful soft delete of an id, the default (exclude
deleted) service lookup on that id fails with the not-found error, while
an include-deleted repository lookup returns an account carrying a
non-null deletion timestamp. -/
theorem C5_soft_delete_then_lookup (st : Store) (id : String) (now : Nat)
    (st' : Store) (h : UserService.DeleteUser st id now = .ok st') :
    UserService.GetUserByID st' id = .error "user not found" ∧
    ∃ u, UserRepo.GetUserByID st' id true = .ok u ∧ u.deletedAt ≠ none := by
  obtain ⟨hid, ⟨w, hw, hwid, hwact⟩, hst'⟩ := deleteUser_ok_shape h
  have hall : ∀ v ∈ st', v.id = id → v.deletedAt ≠ none := by
    intro v hv hvid
    rw [hst'] at hv
    rcases List.mem_map.mp hv with ⟨u0, hu0, hveq⟩
    by_cases hc : (u0.id = id && u0.deletedAt = none) = true
    · rw [if_pos hc] at hveq
      rw [← hveq]
      simp
    · rw [if_neg hc] at hveq
      subst hveq
      simp only [Bool.and_eq_true, decide_eq_true_eq, not_and] at hc
      exact hc hvid
  constructor
  · have hfn : (st'.find? fun u => u.id = id && (false || u.deletedAt = none)) = none := by
      apply List.find?_eq_none.mpr
      intro x hx
      simp only [Bool.false_or, Bool.and_eq_true, decide_eq_true_eq, not_and]
      intro hxid hxdel
      exact hall x hx hxid hxdel
    have hrepo : UserRepo.GetUserByID st' id false = .error UserRepo.recordNotFound := by
      unfold UserRepo.GetUserByID
      rw [hfn]
    unfold UserService.GetUserByID
    rw [if_neg (by simp [hid]), hrepo]
    rfl
  · have hmem : ({ w with deletedAt := some now } : User) ∈ st' := by
      rw [hst']
      refine List.mem_map.mpr ⟨w, hw, ?_⟩
      rw [if_pos (by simp [hwid, hwact])]
    cases hf : st'.find? fun u => u.id = id && (true || u.deletedAt = none) with
    | none =>
      exfalso
      have hcontra := List.find?_eq_none.mp hf _ hmem
      simp [hwid] at hcontra
    | some u =>
      refine ⟨u, ?_, ?_⟩
      · unfold UserRepo.GetUserByID
        rw [hf]
      · have hpu := List.find?_some hf
        have humem := List.mem_of_find?_eq_some hf
        simp only [Bool.and_eq_true, decide_eq_true_eq] at hpu
        exact hall u humem hpu.1

/-- C5 witness: soft-deleting Ann's account, the default lookup reports
not-found and the include-deleted lookup returns a deleted row. -/
theorem C5_soft_delete_then_lookup_witness :
    UserService.GetUserByID [{ annUser with deletedAt := some 7 }] annId =
      .error "user not found" ∧
    ∃ u, UserRepo.GetUserByID [{ annUser with deletedAt := some 7 }] annId true =
      .ok u ∧ u.deletedAt ≠ none :=
  C5_soft_delete_then_lookup [annUser] annId 7
    [{ annUser with deletedAt := some 7 }] rfl

/-- C6: for every well-formed account id, `RestoreUser` fails with the
not-found error when no row with that id exists even among soft-deleted
ones; fails with `user is not deleted` when the found account has a null
deletion timestamp; and otherwise clears the deletion timestamp and
returns the refreshed account, whose deletion timestamp is null. -/
theorem C6_restore_contract (st : Store) (id : String)
    (hid : uuidParseOk id = true) :
    (UserRepo.GetUserByID st id true = .error UserRepo.recordNotFound →
      UserService.RestoreUser st id = .error "user not found") ∧
    (∀ u, UserRepo.GetUserByID st id true = .ok u → u.deletedAt = none →
      UserService.RestoreUser st id = .error "user is not deleted") ∧
    (∀ u t, UserRepo.GetUserByID st id true = .ok u → u.deletedAt = some t →
      ∃ ru st', UserService.RestoreUser st id = .ok (ru, st') ∧
        ru.deletedAt = none) := by
  refine ⟨?_, ?_, ?_⟩
  · intro hu
    unfold UserService.RestoreUser
    rw [if_neg (by simp [hid]), hu]
    rfl
  · intro u hu hdel
    unfold UserService.RestoreUser
    rw [if_neg (by simp [hid]), hu]
    dsimp only
    rw [if_pos hdel]
  · intro u t hu hdel
    have humem : u ∈ st ∧ u.id = id := by
      unfold UserRepo.GetUserByID at hu
      cases hf : st.find? fun v => v.id = id && (true || v.deletedAt = none) with
      | none => rw [hf] at hu; simp at hu
      | some v =>
        rw [hf] at hu
        rw [Except.ok.injEq] at hu
        subst hu
        have h1 := List.mem_of_find?_eq_some hf
        have h2 := List.find?_some hf
        simp only [Bool.and_eq_true, decide_eq_true_eq] at h2
        exact ⟨h1, h2.1⟩
    obtain ⟨humem, huid⟩ := humem
    have hcount : ¬(st.countP fun v => v.id = id) = 0 := by
      intro hc
      have hcc := List.countP_eq_zero.mp hc u humem
      simp [huid] at hcc
    have hrepo : UserRepo.RestoreUser st id =
        .ok (st.map fun v => if v.id = id then { v with deletedAt := none } else v) := by
      unfold UserRepo.RestoreUser
      rw [if_neg hcount]
    have hmem2 : ({ u with deletedAt := none } : User) ∈
        st.map fun v => if v.id = id then { v with deletedAt := none } else v := by
      refine List.mem_map.mpr ⟨u, humem, ?_⟩
      rw [if_pos (by simp [huid])]
    unfold UserService.RestoreUser
    rw [if_neg (by simp [hid]), hu]
    dsimp only
    rw [if_neg (by simp [hdel]), hrepo]
    dsimp only
    cases hf2 : (st.map fun v => if v.id = id then { v with deletedAt := none } else v).find?
        (fun v => v.id = id && (false || v.deletedAt = none)) with
    | none =>
      exfalso
      have hforall := List.find?_eq_none.mp hf2 _ hmem2
      simp [huid] at hforall
    | some ru =>
      have hru := List.find?_some hf2
      simp only [Bool.false_or, Bool.and_eq_true, decide_eq_true_eq] at hru
      have hg : UserRepo.GetUserByID
          (st.map fun v => if v.id = id then { v with deletedAt := none } else v)
          id false = .ok ru := by
        unfold UserRepo.GetUserByID
        rw [hf2]
      rw [hg]
      exact ⟨ru, _, rfl, hru.2⟩

/-- C6 witness: on an empty table restore reports not-found; on Ann's
active account it reports not-deleted; on Ann's soft-deleted account it
returns an account with a null deletion timestamp. -/
theorem C6_restore_contract_witness :
    UserService.RestoreUser [] annId = .error "user not found" ∧
    UserService.RestoreUser [annUser] annId = .error "user is not deleted" ∧
    ∃ ru st', UserService.RestoreUser [{ annUser with deletedAt := some 7 }] annId =
      .ok (ru, st') ∧ ru.deletedAt = none :=
  ⟨(C6_restore_contract [] annId (by decide)).1 rfl,
   (C6_restore_contract [annUser] annId (by decide)).2.1 annUser rfl rfl,
   (C6_restore_contract [{ annUser with deletedAt := some 7 }] annId (by decide)).2.2
     { annUser with deletedAt := some 7 } 7 rfl rfl⟩

/-- C7: a successful generic update rewrites the matched active row's
name, role and photo (with empty role/photo replaced by the defaults) and
its update time, and provably leaves the identifier, email, password,
verified flag, creation timestamp and deletion timestamp of every stored
row unchanged — the map's row function touches no other field. -/
theorem C7_update_frame (st : Store) (id : String) (nowSvc nowRepo : Nat)
    (data : UserService.UpdateUserData) (st' : Store) (hnow : nowRepo ≠ 0)
    (h : UserService.UpdateUser st id nowSvc nowRepo data = .ok st') :
    st' = st.map fun u =>
      if u.id = id && u.deletedAt = none then
        { u with name := data.Name,
                 role := if data.Role = "" then "user" else data.Role,
                 photo := if data.Photo = "" then "default.png" else data.Photo,
                 updatedAt := nowRepo }
      else u := by
  unfold UserService.UpdateUser at h
  split at h
  · simp at h
  next hid =>
    split at h
    · simp at h
    next hname =>
      split at h
      · simp at h
      next hemail =>
        split at h
        next e heq => split at h <;> simp at h
        next existing heq =>
          dsimp only at h
          split at h
          · simp at h
          next hchk =>
            split at h
            next e heq2 => split at h <;> simp at h
            next st2 heq2 =>
              rw [Except.ok.injEq] at h
              subst h
              unfold UserRepo.UpdateUser at heq2
              dsimp only at heq2
              split at heq2
              · simp at heq2
              next hcount =>
                rw [Except.ok.injEq] at heq2
                rw [← heq2]
                apply List.map_congr_left
                intro u hu
                by_cases hc : (u.id = id && u.deletedAt = none) = true
                · rw [if_pos hc, if_pos hc]
                  have hrole : (if data.Role = "" then "user" else data.Role) ≠ "" := by
                    split
                    · simp
                    · assumption
                  have hphoto : (if data.Photo = "" then "default.png" else data.Photo) ≠ "" := by
                    split
                    · simp
                    · assumption
                  unfold UserRepo.applyNonZeroUpdates
                  simp [hname, hrole, hphoto, hnow, uuidNil]
                · rw [if_neg hc, if_neg hc]

/-- C7 witness: updating Ann's row changes only name/role/photo/update
time as the frame theorem states, at concrete inputs. -/
theorem C7_update_frame_witness :
    [({ annUser with name := "Ann2", updatedAt := 9 } : User)] =
      [annUser].map fun u =>
        if u.id = annId && u.deletedAt = none then
          { u with name := annUpdateData.Name,
                   role := if annUpdateData.Role = "" then "user" else annUpdateData.Role,
                   photo := if annUpdateData.Photo = "" then "default.png" else annUpdateData.Photo,
                   updatedAt := 9 }
        else u :=
  C7_update_frame [annUser] annId 9 9 annUpdateData
    [{ annUser with name := "Ann2", updatedAt := 9 }] (by decide) rfl

theorem natLog2Aux_spec (fuel : Nat) : ∀ n, 1 ≤ n → n ≤ fuel →
    2 ^ natLog2Aux fuel n ≤ n ∧ n < 2 ^ (natLog2Aux fuel n + 1) := by
  induction fuel with
  | zero => intro n h1 h2; omega
  | succ fuel ih =>
    intro n h1 h2
    by_cases hn : n ≤ 1
    · have hone : n = 1 := by omega
      subst hone
      show 2 ^ natLog2Aux (fuel+1) 1 ≤ 1 ∧ 1 < 2 ^ (natLog2Aux (fuel+1) 1 + 1)
      rw [show natLog2Aux (fuel+1) 1 = 0 by simp [natLog2Aux]]
      omega
    · rw [show natLog2Aux (fuel+1) n = natLog2Aux fuel (n / 2) + 1 by
        simp [natLog2Aux, hn]]
      have hrec := ih (n / 2) (by omega) (by omega)
      rw [pow_succ] at hrec ⊢
      rw [pow_succ]
      omega

theorem natLog2_spec (n : Nat) (h : 1 ≤ n) :
    2 ^ natLog2 n ≤ n ∧ n < 2 ^ (natLog2 n + 1) :=
  natLog2Aux_spec n n h le_rfl

theorem ceil_natDiv (m T : Nat) (hT : 1 ≤ T) :
    Int.ceil ((m:ℚ) / (T:ℚ)) = (((m + T - 1) / T : Nat) : Int) := by
  have hTq : (0:ℚ) < (T:ℚ) := by exact_mod_cast hT
  have hd := Nat.div_add_mod (m + T - 1) T
  have hm : (m + T - 1) % T < T := Nat.mod_lt _ (by omega)
  set n := (m + T - 1) / T with hn
  rw [Int.ceil_eq_iff]
  constructor
  · rw [lt_div_iff₀ hTq]
    have h1 : T * n < m + T := by omega
    have hq : ((T * n : ℕ) : ℚ) < ((m + T : ℕ) : ℚ) := by exact_mod_cast h1
    push_cast at hq ⊢
    linarith
  · rw [div_le_iff₀ hTq]
    have h2 : m ≤ T * n := by omega
    have hq : ((m : ℕ) : ℚ) ≤ ((T * n : ℕ) : ℚ) := by exact_mod_cast h2
    push_cast at hq ⊢
    linarith

theorem F64.ceilInt_eq (f : F64) : f.ceilInt = Int.ceil f.val := by
  unfold F64.ceilInt F64.val
  split
  next hle =>
    have he : (2:ℚ) ^ (f.exp - 52) = ((2 ^ (f.exp - 52).toNat : ℕ) : ℚ) := by
      push_cast
      rw [← zpow_natCast (2:ℚ) (f.exp - 52).toNat]
      congr 1
      omega
    rw [he, show ((f.sig : ℚ) * ((2 ^ (f.exp - 52).toNat : ℕ) : ℚ)) =
        (((f.sig * 2 ^ (f.exp - 52).toNat : ℕ) : ℚ)) by push_cast; ring,
      Int.ceil_natCast]
    push_cast
    ring
  next hlt =>
    have hT : (1:ℕ) ≤ 2 ^ (52 - f.exp).toNat := Nat.one_le_two_pow
    have he : (2:ℚ) ^ (f.exp - 52) = 1 / ((2 ^ (52 - f.exp).toNat : ℕ) : ℚ) := by
      push_cast
      rw [one_div, ← zpow_natCast (2:ℚ) (52 - f.exp).toNat, ← zpow_neg]
      congr 1
      omega
    rw [he, show (f.sig : ℚ) * (1 / ((2 ^ (52 - f.exp).toNat : ℕ) : ℚ)) =
        (f.sig : ℚ) / ((2 ^ (52 - f.exp).toNat : ℕ) : ℚ) by ring]
    rw [ceil_natDiv _ _ hT]

theorem pow2LeDiv_iff (k : Int) (a b : Nat) (hb : 1 ≤ b) :
    pow2LeDiv k a b = true ↔ (2:ℚ) ^ k ≤ (a:ℚ) / (b:ℚ) := by
  have hbq : (0:ℚ) < (b:ℚ) := by exact_mod_cast hb
  unfold pow2LeDiv
  split
  next hk =>
    rw [decide_eq_true_eq, le_div_iff₀ hbq]
    have hc : (2:ℚ) ^ k = ((2 ^ k.toNat : ℕ) : ℚ) := by
      push_cast
      rw [← zpow_natCast (2:ℚ) k.toNat]
      congr 1
      omega
    rw [hc, show ((2 ^ k.toNat : ℕ) : ℚ) * (b:ℚ) = ((2 ^ k.toNat * b : ℕ) : ℚ) by
      push_cast; ring]
    exact (Nat.cast_le (α := ℚ)).symm
  next hk =>
    rw [decide_eq_true_eq, le_div_iff₀ hbq]
    have hc : (2:ℚ) ^ k = 1 / ((2 ^ (-k).toNat : ℕ) : ℚ) := by
      push_cast
      rw [one_div, ← zpow_natCast (2:ℚ) (-k).toNat, ← zpow_neg]
      congr 1
      omega
    have hpq : (0:ℚ) < ((2 ^ (-k).toNat : ℕ) : ℚ) := by positivity
    rw [hc, div_mul_eq_mul_div, one_mul, div_le_iff₀ hpq]
    rw [show (a:ℚ) * ((2 ^ (-k).toNat : ℕ) : ℚ) = ((2 ^ (-k).toNat * a : ℕ) : ℚ) by
      push_cast; ring]
    exact (Nat.cast_le (α := ℚ)).symm

theorem binadeOf_spec (a b : Nat) (ha : 1 ≤ a) (hb : 1 ≤ b) :
    (2:ℚ) ^ (binadeOf a b) ≤ (a:ℚ) / (b:ℚ) ∧
    (a:ℚ) / (b:ℚ) < 2 ^ (binadeOf a b + 1) := by
  have hbq : (0:ℚ) < (b:ℚ) := by exact_mod_cast hb
  obtain ⟨ha1, ha2⟩ := natLog2_spec a ha
  obtain ⟨hb1, hb2⟩ := natLog2_spec b hb
  unfold binadeOf
  dsimp only
  set La := natLog2 a with hLa
  set Lb := natLog2 b with hLb
  have ha1q : (2:ℚ) ^ (La:ℤ) ≤ (a:ℚ) := by
    rw [zpow_natCast]; exact_mod_cast ha1
  have ha2q : (a:ℚ) < 2 ^ ((La:ℤ) + 1) := by
    rw [show (La:ℤ) + 1 = ((La + 1 : ℕ) : ℤ) by push_cast; ring, zpow_natCast]
    exact_mod_cast ha2
  have hb1q : (2:ℚ) ^ (Lb:ℤ) ≤ (b:ℚ) := by
    rw [zpow_natCast]; exact_mod_cast hb1
  have hb2q : (b:ℚ) < 2 ^ ((Lb:ℤ) + 1) := by
    rw [show (Lb:ℤ) + 1 = ((Lb + 1 : ℕ) : ℤ) by push_cast; ring, zpow_natCast]
    exact_mod_cast hb2
  have hup : (a:ℚ) / (b:ℚ) < 2 ^ ((La:ℤ) - (Lb:ℤ) + 1) := by
    have hrw : (2:ℚ) ^ ((La:ℤ) - (Lb:ℤ) + 1) = 2 ^ ((La:ℤ)+1) / 2 ^ (Lb:ℤ) := by
      rw [← zpow_sub₀ (two_ne_zero)]
      congr 1
      ring
    rw [hrw, div_lt_div_iff₀ hbq (by positivity)]
    calc (a:ℚ) * 2 ^ (Lb:ℤ) < 2 ^ ((La:ℤ)+1) * 2 ^ (Lb:ℤ) :=
          mul_lt_mul_of_pos_right ha2q (by positivity)
      _ ≤ 2 ^ ((La:ℤ)+1) * b := by
          apply mul_le_mul_of_nonneg_left hb1q (by positivity)
  have hlow : (2:ℚ) ^ ((La:ℤ) - (Lb:ℤ) - 1) < (a:ℚ) / (b:ℚ) := by
    have hrw : (2:ℚ) ^ ((La:ℤ) - (Lb:ℤ) - 1) = 2 ^ (La:ℤ) / 2 ^ ((Lb:ℤ)+1) := by
      rw [← zpow_sub₀ (two_ne_zero)]
      congr 1
      ring
    rw [hrw, div_lt_div_iff₀ (by positivity) hbq]
    calc (2:ℚ) ^ (La:ℤ) * b < 2 ^ (La:ℤ) * 2 ^ ((Lb:ℤ)+1) :=
          mul_lt_mul_of_pos_left hb2q (by positivity)
      _ ≤ (a:ℚ) * 2 ^ ((Lb:ℤ)+1) := by
          apply mul_le_mul_of_nonneg_right ha1q (by positivity)
  split
  next hpl =>
    exact ⟨(pow2LeDiv_iff _ a b hb).mp hpl, hup⟩
  next hpl =>
    constructor
    · exact le_of_lt hlow
    · rw [show (La:ℤ) - (Lb:ℤ) - 1 + 1 = (La:ℤ) - (Lb:ℤ) by ring]
      by_contra hcon
      push_neg at hcon
      exact hpl ((pow2LeDiv_iff _ a b hb).mpr hcon)

theorem natDiv_bracket (N D : Nat) (hD : 1 ≤ D) :
    ((N / D : ℕ) : ℚ) ≤ (N:ℚ) / (D:ℚ) ∧
    (N:ℚ) / (D:ℚ) - ((N / D : ℕ) : ℚ) = ((N % D : ℕ) : ℚ) / (D:ℚ) := by
  have hDq : (0:ℚ) < (D:ℚ) := by exact_mod_cast hD
  have hd : (D:ℚ) * ((N / D : ℕ) : ℚ) + ((N % D : ℕ) : ℚ) = (N:ℚ) := by
    exact_mod_cast Nat.div_add_mod N D
  have hr0 : (0:ℚ) ≤ ((N % D : ℕ) : ℚ) := by positivity
  constructor
  · rw [le_div_iff₀ hDq]
    linarith
  · field_simp
    linarith

theorem rnInt_cases (N D : Nat) (hD : 1 ≤ D) :
    (N % D = 0 ∧ rnInt N D = N / D) ∨
    (N % D ≠ 0 ∧ rnInt N D = N / D ∧
      ((N % D : ℕ) : ℚ) / (D:ℚ) ≤ 1/2) ∨
    (N % D ≠ 0 ∧ rnInt N D = N / D + 1 ∧
      1 - ((N % D : ℕ) : ℚ) / (D:ℚ) ≤ 1/2) := by
  have hDq : (0:ℚ) < (D:ℚ) := by exact_mod_cast hD
  unfold rnInt
  dsimp only
  by_cases h0 : N % D = 0
  · left
    refine ⟨h0, ?_⟩
    rw [h0, if_pos (by omega)]
  · by_cases h1 : 2 * (N % D) < D
    · right; left
      refine ⟨h0, by rw [if_pos h1], ?_⟩
      rw [div_le_iff₀ hDq]
      have hc : ((2 * (N % D) : ℕ) : ℚ) ≤ (D:ℚ) := by
        exact_mod_cast le_of_lt h1
      push_cast at hc
      linarith
    · by_cases h2 : D < 2 * (N % D)
      · right; right
        refine ⟨h0, by rw [if_neg h1, if_pos h2], ?_⟩
        have hc : (D:ℚ) ≤ ((2 * (N % D) : ℕ) : ℚ) := by
          exact_mod_cast le_of_lt h2
        push_cast at hc
        have hhalf : 1/2 ≤ ((N % D : ℕ) : ℚ) / (D:ℚ) := by
          rw [le_div_iff₀ hDq]
          linarith
        linarith
      · have htie : 2 * (N % D) = D := by omega
        have hhalf : ((N % D : ℕ) : ℚ) / (D:ℚ) = 1/2 := by
          rw [div_eq_iff (ne_of_gt hDq)]
          have hc := congrArg (Nat.cast (R := ℚ)) htie
          push_cast at hc
          linarith
        by_cases h3 : N / D % 2 = 0
        · right; left
          refine ⟨h0, by rw [if_neg h1, if_neg h2, if_pos h3], by rw [hhalf]⟩
        · right; right
          refine ⟨h0, by rw [if_neg h1, if_neg h2, if_neg h3], by rw [hhalf]; norm_num⟩

theorem mod_eq_zero_of_mulInt (N D : Nat) (hD : 1 ≤ D) (c : ℤ)
    (h : (N:ℚ) = (c:ℚ) * (D:ℚ)) : N % D = 0 := by
  have hN : (N:ℤ) = c * (D:ℤ) := by exact_mod_cast h
  have hdvd : (D:ℤ) ∣ (N:ℤ) := ⟨c, by rw [hN]; ring⟩
  have hdvd' : D ∣ N := Int.natCast_dvd_natCast.mp hdvd
  obtain ⟨e, he⟩ := hdvd'
  subst he
  simp [Nat.mul_mod_right]

/-- Core correctness of the modelled binary64 rounding for the pagination
claim: rounding `N / D` (an exact rescaling of `A / B` onto the binade-`k`
grid) to nearest and taking the ceiling gives the exact ceiling of
`A / B`, for any numerator `A ≤ 2 ^ 53`. -/
theorem rnInt_grid_ceil (N D : Nat) (hD : 1 ≤ D) (k : Int) (A B : Nat)
    (hB : 1 ≤ B) (hA1 : 1 ≤ A) (hA : A ≤ 2 ^ 53)
    (hbin1 : (2:ℚ) ^ k ≤ (A:ℚ) / (B:ℚ))
    (hND : (N:ℚ) / (D:ℚ) = (A:ℚ) / (B:ℚ) * (2:ℚ) ^ (52 - k)) :
    F64.ceilInt ⟨rnInt N D, k⟩ = Int.ceil ((A:ℚ) / (B:ℚ)) := by
  have hDq : (0:ℚ) < (D:ℚ) := by exact_mod_cast hD
  have hBq : (0:ℚ) < (B:ℚ) := by exact_mod_cast hB
  have hAq : (0:ℚ) < (A:ℚ) := by exact_mod_cast hA1
  have hxpos : 0 < (A:ℚ) / (B:ℚ) := div_pos hAq hBq
  have hgpos : (0:ℚ) < (2:ℚ) ^ (k - 52) := by positivity
  have hginv : (2:ℚ) ^ (52 - k) * (2:ℚ) ^ (k - 52) = 1 := by
    rw [← zpow_add₀ (two_ne_zero : (2:ℚ) ≠ 0)]
    norm_num
  have hq0 : 0 < Int.ceil ((A:ℚ) / (B:ℚ)) := Int.ceil_pos.mpr hxpos
  have hxq : (A:ℚ) / (B:ℚ) ≤ (Int.ceil ((A:ℚ) / (B:ℚ)) : ℚ) := Int.le_ceil _
  have hqx : (Int.ceil ((A:ℚ) / (B:ℚ)) : ℚ) - 1 < (A:ℚ) / (B:ℚ) := by
    have h := Int.ceil_lt_add_one ((A:ℚ) / (B:ℚ))
    push_cast at h
    linarith
  obtain ⟨hfl, hfr⟩ := natDiv_bracket N D hD
  have hSg : (N:ℚ) / (D:ℚ) * (2:ℚ) ^ (k - 52) = (A:ℚ) / (B:ℚ) := by
    rw [hND, mul_assoc, hginv, mul_one]
  have hA53 : (A:ℚ) ≤ (2:ℚ) ^ (53:ℤ) := by
    have hc : ((A:ℕ):ℚ) ≤ ((2 ^ 53 : ℕ):ℚ) := by exact_mod_cast hA
    calc (A:ℚ) ≤ ((2 ^ 53 : ℕ):ℚ) := hc
      _ = (2:ℚ) ^ (53:ℤ) := by norm_num
  have hexact_of_eq_pow : (A:ℚ) / (B:ℚ) = (2:ℚ) ^ k → N % D = 0 := by
    intro hxk
    apply mod_eq_zero_of_mulInt N D hD (2 ^ 52)
    have h1 : (N:ℚ) / (D:ℚ) = (2:ℚ) ^ (52:ℤ) := by
      rw [hND, hxk, ← zpow_add₀ (two_ne_zero : (2:ℚ) ≠ 0)]
      congr 1
      ring
    rw [div_eq_iff (ne_of_gt hDq)] at h1
    rw [h1]
    congr 1
    norm_num
  have hk_le : N % D ≠ 0 → k ≤ 52 := by
    intro hne
    by_contra hgt
    push_neg at hgt
    have hxle : (A:ℚ) / (B:ℚ) ≤ (2:ℚ) ^ (53:ℤ) := by
      have h1 : (A:ℚ) / (B:ℚ) ≤ (A:ℚ) := by
        rw [div_le_iff₀ hBq]
        have hB1 : (1:ℚ) ≤ (B:ℚ) := by exact_mod_cast hB
        nlinarith
      linarith
    have h53k : (2:ℚ) ^ (53:ℤ) ≤ (2:ℚ) ^ k := by
      apply zpow_le_zpow_right₀ (by norm_num : (1:ℚ) ≤ 2)
      omega
    exact hne (hexact_of_eq_pow (le_antisymm (hxle.trans h53k) hbin1))
  have hexact_of_eq_q : N % D ≠ 0 →
      (A:ℚ) / (B:ℚ) = (Int.ceil ((A:ℚ) / (B:ℚ)) : ℚ) → False := by
    intro hne hxe
    have hk52 := hk_le hne
    apply hne
    apply mod_eq_zero_of_mulInt N D hD
      (Int.ceil ((A:ℚ) / (B:ℚ)) * 2 ^ (52 - k).toNat)
    have h2' : ((2:ℚ) ^ (52 - k).toNat) = (2:ℚ) ^ ((52:ℤ) - k) := by
      rw [← zpow_natCast (2:ℚ) (52 - k).toNat]
      congr 1
      omega
    have h1 : (N:ℚ) / (D:ℚ) =
        (Int.ceil ((A:ℚ) / (B:ℚ)) : ℚ) * (2:ℚ) ^ ((52:ℤ) - k) := by
      rw [hND, hxe, Int.ceil_intCast]
    rw [div_eq_iff (ne_of_gt hDq)] at h1
    rw [h1]
    congr 1
    push_cast
    rw [h2']
  have hmargin : N % D ≠ 0 → (2:ℚ) ^ (k - 52) / 2 < 1 / (B:ℚ) := by
    intro hne
    have hstrict : (2:ℚ) ^ k < (A:ℚ) / (B:ℚ) :=
      lt_of_le_of_ne hbin1 (fun he => hne (hexact_of_eq_pow he.symm))
    have h1 : (B:ℚ) * (2:ℚ) ^ k < (A:ℚ) := by
      rw [mul_comm, ← lt_div_iff₀ hBq]
      exact hstrict
    have hlt : (B:ℚ) * (2:ℚ) ^ k < (2:ℚ) ^ (53:ℤ) := by linarith
    have key : (B:ℚ) * (2:ℚ) ^ (k - 52) < 2 := by
      have e1 : (2:ℚ) ^ (k - 52) = (2:ℚ) ^ k * (2:ℚ) ^ (-52:ℤ) := by
        rw [← zpow_add₀ (two_ne_zero : (2:ℚ) ≠ 0)]
        congr 1
      have e2 : (2:ℚ) ^ (53:ℤ) * (2:ℚ) ^ (-52:ℤ) = 2 := by
        rw [← zpow_add₀ (two_ne_zero : (2:ℚ) ≠ 0)]
        norm_num
      calc (B:ℚ) * (2:ℚ) ^ (k - 52) = (B:ℚ) * (2:ℚ) ^ k * (2:ℚ) ^ (-52:ℤ) := by
            rw [e1]; ring
        _ < (2:ℚ) ^ (53:ℤ) * (2:ℚ) ^ (-52:ℤ) :=
            mul_lt_mul_of_pos_right hlt (by positivity)
        _ = 2 := e2
    rw [div_lt_div_iff₀ (by norm_num) hBq]
    linarith
  have hstep : 1 / (B:ℚ) ≤
      (A:ℚ) / (B:ℚ) - ((Int.ceil ((A:ℚ) / (B:ℚ)) : ℚ) - 1) := by
    have h1 : ((Int.ceil ((A:ℚ) / (B:ℚ)) : ℚ) - 1) * (B:ℚ) < (A:ℚ) := by
      have h2 : ((Int.ceil ((A:ℚ) / (B:ℚ)) : ℚ) - 1) * (B:ℚ) <
          ((A:ℚ) / (B:ℚ)) * (B:ℚ) := mul_lt_mul_of_pos_right hqx hBq
      rw [div_mul_cancel₀ _ (ne_of_gt hBq)] at h2
      exact h2
    have h2 : (Int.ceil ((A:ℚ) / (B:ℚ)) - 1) * (B:ℤ) < (A:ℤ) := by
      exact_mod_cast h1
    have h3 : (Int.ceil ((A:ℚ) / (B:ℚ)) - 1) * (B:ℤ) + 1 ≤ (A:ℤ) := by omega
    have h4 : ((Int.ceil ((A:ℚ) / (B:ℚ)) : ℚ) - 1) * (B:ℚ) + 1 ≤ (A:ℚ) := by
      exact_mod_cast h3
    rw [le_sub_iff_add_le, le_div_iff₀ hBq]
    have e1 : (1 / (B:ℚ) + ((Int.ceil ((A:ℚ) / (B:ℚ)) : ℚ) - 1)) * (B:ℚ) =
        1 + ((Int.ceil ((A:ℚ) / (B:ℚ)) : ℚ) - 1) * (B:ℚ) := by
      field_simp
    rw [e1]
    linarith
  rw [F64.ceilInt_eq]
  rw [show F64.val ⟨rnInt N D, k⟩ = ((rnInt N D : ℕ) : ℚ) * (2:ℚ) ^ (k - 52) from rfl]
  rcases rnInt_cases N D hD with ⟨hr0, hm⟩ | ⟨hr0, hm, hhalf⟩ | ⟨hr0, hm, hhalf⟩
  · rw [hm]
    have h0 : ((N % D : ℕ) : ℚ) = 0 := by exact_mod_cast hr0
    have hm0 : ((N / D : ℕ) : ℚ) = (N:ℚ) / (D:ℚ) := by
      rw [h0, zero_div] at hfr
      linarith
    rw [show ((N / D : ℕ) : ℚ) * (2:ℚ) ^ (k - 52) = (A:ℚ) / (B:ℚ) by
      rw [hm0, hSg]]
  · rw [hm]
    have hub : ((N / D : ℕ) : ℚ) * (2:ℚ) ^ (k - 52) ≤ (A:ℚ) / (B:ℚ) := by
      calc ((N / D : ℕ) : ℚ) * (2:ℚ) ^ (k - 52)
          ≤ (N:ℚ) / (D:ℚ) * (2:ℚ) ^ (k - 52) :=
            mul_le_mul_of_nonneg_right hfl (le_of_lt hgpos)
        _ = (A:ℚ) / (B:ℚ) := hSg
    have hlb : (Int.ceil ((A:ℚ) / (B:ℚ)) : ℚ) - 1 <
        ((N / D : ℕ) : ℚ) * (2:ℚ) ^ (k - 52) := by
      have hv : (A:ℚ) / (B:ℚ) - ((N / D : ℕ) : ℚ) * (2:ℚ) ^ (k - 52) ≤
          (2:ℚ) ^ (k - 52) / 2 := by
        have e1 : (A:ℚ) / (B:ℚ) - ((N / D : ℕ) : ℚ) * (2:ℚ) ^ (k - 52)
            = ((N:ℚ) / (D:ℚ) - ((N / D : ℕ) : ℚ)) * (2:ℚ) ^ (k - 52) := by
          rw [← hSg]
          ring
        rw [e1, hfr]
        calc ((N % D : ℕ) : ℚ) / (D:ℚ) * (2:ℚ) ^ (k - 52)
            ≤ (1/2) * (2:ℚ) ^ (k - 52) :=
              mul_le_mul_of_nonneg_right hhalf (le_of_lt hgpos)
          _ = (2:ℚ) ^ (k - 52) / 2 := by ring
      have hmg := hmargin hr0
      linarith [hstep]
    rw [Int.ceil_eq_iff]
    exact ⟨hlb, le_trans hub hxq⟩
  · rw [hm]
    have hk52 := hk_le hr0
    have hrD : ((N % D : ℕ) : ℚ) < (D:ℚ) := by
      exact_mod_cast Nat.mod_lt N (by omega)
    have hlb : (Int.ceil ((A:ℚ) / (B:ℚ)) : ℚ) - 1 <
        (((N / D : ℕ) + 1 : ℕ) : ℚ) * (2:ℚ) ^ (k - 52) := by
      have hlt1 : (N:ℚ) / (D:ℚ) < ((N / D : ℕ) : ℚ) + 1 := by
        have hd1 : ((N % D : ℕ) : ℚ) / (D:ℚ) < 1 := by
          rw [div_lt_one hDq]
          exact hrD
        linarith [hfr]
      have hgt : (A:ℚ) / (B:ℚ) < (((N / D : ℕ) + 1 : ℕ) : ℚ) * (2:ℚ) ^ (k - 52) := by
        calc (A:ℚ) / (B:ℚ) = (N:ℚ) / (D:ℚ) * (2:ℚ) ^ (k - 52) := hSg.symm
          _ < (((N / D : ℕ) : ℚ) + 1) * (2:ℚ) ^ (k - 52) :=
              mul_lt_mul_of_pos_right hlt1 hgpos
          _ = (((N / D : ℕ) + 1 : ℕ) : ℚ) * (2:ℚ) ^ (k - 52) := by
              push_cast
              ring
      linarith
    have hub : (((N / D : ℕ) + 1 : ℕ) : ℚ) * (2:ℚ) ^ (k - 52) ≤
        (Int.ceil ((A:ℚ) / (B:ℚ)) : ℚ) := by
      have hEq : ((2 ^ (52 - k).toNat : ℤ) : ℚ) = (2:ℚ) ^ ((52:ℤ) - k) := by
        push_cast
        rw [← zpow_natCast (2:ℚ) (52 - k).toNat]
        congr 1
        omega
      have hm0lt : ((N / D : ℕ) : ℚ) * (2:ℚ) ^ (k - 52) < (A:ℚ) / (B:ℚ) := by
        have hrpos : (0:ℚ) < ((N % D : ℕ) : ℚ) := by
          exact_mod_cast Nat.pos_of_ne_zero hr0
        have hstrict : ((N / D : ℕ) : ℚ) < (N:ℚ) / (D:ℚ) := by
          have hdpos : (0:ℚ) < ((N % D : ℕ) : ℚ) / (D:ℚ) := div_pos hrpos hDq
          linarith [hfr]
        calc ((N / D : ℕ) : ℚ) * (2:ℚ) ^ (k - 52)
            < (N:ℚ) / (D:ℚ) * (2:ℚ) ^ (k - 52) :=
              mul_lt_mul_of_pos_right hstrict hgpos
          _ = (A:ℚ) / (B:ℚ) := hSg
      have hxltq : (A:ℚ) / (B:ℚ) < (Int.ceil ((A:ℚ) / (B:ℚ)) : ℚ) := by
        rcases lt_or_eq_of_le hxq with h | h
        · exact h
        · exact (hexact_of_eq_q hr0 h).elim
      have hqE : ((Int.ceil ((A:ℚ) / (B:ℚ)) * 2 ^ (52 - k).toNat : ℤ) : ℚ) *
          (2:ℚ) ^ (k - 52) = (Int.ceil ((A:ℚ) / (B:ℚ)) : ℚ) := by
        push_cast
        rw [show ((2:ℚ) ^ (52 - k).toNat) = (2:ℚ) ^ ((52:ℤ) - k) by
          rw [← zpow_natCast (2:ℚ) (52 - k).toNat]
          congr 1
          omega]
        rw [mul_assoc, hginv, mul_one]
      have hq2 : ((N / D : ℕ) : ℚ) * (2:ℚ) ^ (k - 52) <
          ((Int.ceil ((A:ℚ) / (B:ℚ)) * 2 ^ (52 - k).toNat : ℤ) : ℚ) *
            (2:ℚ) ^ (k - 52) := by
        rw [hqE]
        exact lt_trans hm0lt hxltq
      rw [mul_lt_mul_right hgpos] at hq2
      have hlt2 : ((N / D : ℕ) : ℤ) <
          Int.ceil ((A:ℚ) / (B:ℚ)) * 2 ^ (52 - k).toNat := by
        have h' : (((N / D : ℕ) : ℤ) : ℚ) <
            ((Int.ceil ((A:ℚ) / (B:ℚ)) * 2 ^ (52 - k).toNat : ℤ) : ℚ) := by
          rw [Int.cast_natCast]
          exact hq2
        exact Int.cast_lt.mp h'
      have hle2 : ((N / D : ℕ) : ℤ) + 1 ≤
          Int.ceil ((A:ℚ) / (B:ℚ)) * 2 ^ (52 - k).toNat := by omega
      have hfin : (((N / D : ℕ) : ℚ) + 1) * (2:ℚ) ^ (k - 52) ≤
          ((Int.ceil ((A:ℚ) / (B:ℚ)) * 2 ^ (52 - k).toNat : ℤ) : ℚ) *
            (2:ℚ) ^ (k - 52) := by
        apply mul_le_mul_of_nonneg_right _ (le_of_lt hgpos)
        have h' : ((((N / D : ℕ) : ℤ) + 1 : ℤ) : ℚ) ≤
            ((Int.ceil ((A:ℚ) / (B:ℚ)) * 2 ^ (52 - k).toNat : ℤ) : ℚ) :=
          Int.cast_le.mpr hle2
        rw [Int.cast_add, Int.cast_one, Int.cast_natCast] at h'
        exact h'
      rw [hqE] at hfin
      calc (((N / D : ℕ) + 1 : ℕ) : ℚ) * (2:ℚ) ^ (k - 52)
          = (((N / D : ℕ) : ℚ) + 1) * (2:ℚ) ^ (k - 52) := by push_cast; ring
        _ ≤ _ := hfin
    rw [Int.ceil_eq_iff]
    exact ⟨hlb, hub⟩

theorem rnInt_one (N : Nat) : rnInt N 1 = N := by
  simp [rnInt, Nat.mod_one, Nat.div_one]

/-- Rounding `a / b` to binary64 and taking the ceiling agrees with the
exact ceiling of the same value written as `A / B`, whenever the numerator
`A` is at most `2 ^ 53`. -/
theorem rnDivNat_ceilInt (a b A B : Nat) (hb : 1 ≤ b) (hB : 1 ≤ B)
    (hA : A ≤ 2 ^ 53) (hx : a * B = A * b) :
    (rnDivNat a b).ceilInt = Int.ceil ((A:ℚ) / (B:ℚ)) := by
  have hbq : (0:ℚ) < (b:ℚ) := by exact_mod_cast hb
  have hBq : (0:ℚ) < (B:ℚ) := by exact_mod_cast hB
  have hxq : (a:ℚ) / (b:ℚ) = (A:ℚ) / (B:ℚ) := by
    rw [div_eq_div_iff (ne_of_gt hbq) (ne_of_gt hBq)]
    exact_mod_cast hx
  by_cases ha0 : a = 0
  · subst ha0
    have hA0 : A = 0 := by
      rw [Nat.zero_mul] at hx
      rcases Nat.mul_eq_zero.mp hx.symm with h | h
      · exact h
      · omega
    subst hA0
    have h1 : rnDivNat 0 b = ⟨0, 0⟩ := rfl
    rw [h1]
    have h2 : F64.ceilInt ⟨0, 0⟩ = 0 := by decide
    rw [h2, Nat.cast_zero, zero_div]
    simp
  · have ha1 : 1 ≤ a := by omega
    have hA1 : 1 ≤ A := by
      by_contra hc
      push_neg at hc
      have hA0 : A = 0 := by omega
      rw [hA0, Nat.zero_mul] at hx
      rcases Nat.mul_eq_zero.mp hx with h | h <;> omega
    obtain ⟨hbin1, hbin2⟩ := binadeOf_spec a b ha1 hb
    rw [hxq] at hbin1
    unfold rnDivNat
    rw [if_neg ha0]
    dsimp only
    split
    next hs =>
      apply rnInt_grid_ceil _ _ hb _ A B hB hA1 hA hbin1
      have hp : ((2:ℚ) ^ (52 - binadeOf a b).toNat) =
          (2:ℚ) ^ ((52:ℤ) - binadeOf a b) := by
        rw [← zpow_natCast (2:ℚ) (52 - binadeOf a b).toNat]
        congr 1
        omega
      push_cast
      rw [hp, ← hxq]
      ring
    next hs =>
      have hb2 : 1 ≤ b * 2 ^ (-(52 - binadeOf a b)).toNat := by
        have h1 : 0 < 2 ^ (-(52 - binadeOf a b)).toNat := Nat.two_pow_pos _
        have h2 : 0 < b * 2 ^ (-(52 - binadeOf a b)).toNat :=
          Nat.mul_pos (by omega) h1
        omega
      apply rnInt_grid_ceil _ _ hb2 _ A B hB hA1 hA hbin1
      have hp : ((2:ℚ) ^ (-(52 - binadeOf a b)).toNat) =
          (2:ℚ) ^ (binadeOf a b - (52:ℤ)) := by
        rw [← zpow_natCast (2:ℚ) (-(52 - binadeOf a b)).toNat]
        congr 1
        omega
      have hz : (2:ℚ) ^ (binadeOf a b - (52:ℤ)) ≠ 0 := by positivity
      push_cast
      rw [hp, ← hxq]
      rw [show (52:ℤ) - binadeOf a b = -(binadeOf a b - 52) by ring, zpow_neg]
      field_simp

theorem F64.ofNat_val (n : Nat) (hn : n ≤ 2 ^ 53) : (F64.ofNat n).val = (n:ℚ) := by
  unfold F64.ofNat rnDivNat
  by_cases h0 : n = 0
  · subst h0
    rw [if_pos rfl]
    simp [F64.val]
  · rw [if_neg h0]
    have hn1 : 1 ≤ n := by omega
    obtain ⟨hbin1, hbin2⟩ := binadeOf_spec n 1 hn1 le_rfl
    rw [Nat.cast_one, div_one] at hbin1 hbin2
    have hk53 : binadeOf n 1 ≤ 53 := by
      by_contra hc
      push_neg at hc
      have h1 : (2:ℚ) ^ (54:ℤ) ≤ (2:ℚ) ^ (binadeOf n 1) := by
        apply zpow_le_zpow_right₀ (by norm_num : (1:ℚ) ≤ 2)
        omega
      have h2 : (n:ℚ) ≤ (2:ℚ) ^ (53:ℤ) := by
        calc (n:ℚ) ≤ ((2 ^ 53 : ℕ) : ℚ) := by exact_mod_cast hn
          _ = (2:ℚ) ^ (53:ℤ) := by norm_num
      have h3 : (2:ℚ) ^ (53:ℤ) < (2:ℚ) ^ (54:ℤ) := by norm_num
      linarith
    dsimp only
    split
    next hs =>
      rw [rnInt_one, F64.val]
      dsimp only
      push_cast
      rw [show ((2:ℚ) ^ (52 - binadeOf n 1).toNat) =
          (2:ℚ) ^ ((52:ℤ) - binadeOf n 1) by
        rw [← zpow_natCast (2:ℚ) (52 - binadeOf n 1).toNat]
        congr 1
        omega]
      rw [mul_assoc, ← zpow_add₀ (two_ne_zero : (2:ℚ) ≠ 0)]
      rw [show (52:ℤ) - binadeOf n 1 + (binadeOf n 1 - 52) = 0 by ring]
      norm_num
    next hs =>
      have hk : binadeOf n 1 = 53 := by omega
      have hn2 : n = 2 ^ 53 := by
        have h1 : (2:ℚ) ^ (53:ℤ) ≤ (n:ℚ) := by rw [← hk]; exact hbin1
        have h2 : ((2 ^ 53 : ℕ) : ℚ) ≤ (n:ℚ) := by
          rw [show ((2 ^ 53 : ℕ) : ℚ) = (2:ℚ) ^ (53:ℤ) by norm_num]
          exact h1
        have h3 : 2 ^ 53 ≤ n := by exact_mod_cast h2
        omega
      subst hn2
      rw [hk]
      norm_num [rnInt, F64.val]

theorem F64.div_ceilInt (f g : F64) (A B : Nat) (hB : 1 ≤ B) (hA : A ≤ 2 ^ 53)
    (hf : f.val = (A:ℚ)) (hg : g.val = (B:ℚ)) :
    (f.div g).ceilInt = Int.ceil ((A:ℚ) / (B:ℚ)) := by
  have hgsig : 1 ≤ g.sig := by
    by_contra hc
    push_neg at hc
    have h0 : g.sig = 0 := by omega
    have h0' : (B:ℚ) = 0 := by
      rw [F64.val, h0] at hg
      simpa using hg.symm
    have hB0 : B = 0 := by exact_mod_cast h0'
    omega
  unfold F64.div
  dsimp only
  split
  next he =>
    apply rnDivNat_ceilInt _ _ A B hgsig hB hA
    have hp : ((2:ℚ) ^ (f.exp - g.exp).toNat) = (2:ℚ) ^ (f.exp - g.exp) := by
      rw [← zpow_natCast (2:ℚ) (f.exp - g.exp).toNat]
      congr 1
      omega
    have hzz : (2:ℚ) ^ (f.exp - g.exp) * (2:ℚ) ^ (g.exp - 52) =
        (2:ℚ) ^ (f.exp - 52) := by
      rw [← zpow_add₀ (two_ne_zero : (2:ℚ) ≠ 0)]
      congr 1
      ring
    have hq : ((f.sig * 2 ^ (f.exp - g.exp).toNat : ℕ) : ℚ) * (B:ℚ) =
        (A:ℚ) * ((g.sig : ℕ) : ℚ) := by
      push_cast
      rw [hp, ← hg, ← hf, F64.val, F64.val]
      calc (f.sig : ℚ) * (2:ℚ) ^ (f.exp - g.exp) *
            ((g.sig : ℚ) * (2:ℚ) ^ (g.exp - 52))
          = ((f.sig : ℚ) * (g.sig : ℚ)) *
            ((2:ℚ) ^ (f.exp - g.exp) * (2:ℚ) ^ (g.exp - 52)) := by ring
        _ = ((f.sig : ℚ) * (g.sig : ℚ)) * (2:ℚ) ^ (f.exp - 52) := by rw [hzz]
        _ = (f.sig : ℚ) * (2:ℚ) ^ (f.exp - 52) * (g.sig : ℚ) := by ring
    exact_mod_cast hq
  next he =>
    have hbs : 1 ≤ g.sig * 2 ^ (-(f.exp - g.exp)).toNat := by
      have h1 := Nat.two_pow_pos (-(f.exp - g.exp)).toNat
      have h2 : 0 < g.sig * 2 ^ (-(f.exp - g.exp)).toNat :=
        Nat.mul_pos (by omega) h1
      omega
    apply rnDivNat_ceilInt _ _ A B hbs hB hA
    have hp : ((2:ℚ) ^ (-(f.exp - g.exp)).toNat) = (2:ℚ) ^ (g.exp - f.exp) := by
      rw [← zpow_natCast (2:ℚ) (-(f.exp - g.exp)).toNat]
      congr 1
      omega
    have hzz : (2:ℚ) ^ (g.exp - f.exp) * (2:ℚ) ^ (f.exp - 52) =
        (2:ℚ) ^ (g.exp - 52) := by
      rw [← zpow_add₀ (two_ne_zero : (2:ℚ) ≠ 0)]
      congr 1
      ring
    have hq : ((f.sig : ℕ) : ℚ) * (B:ℚ) =
        (A:ℚ) * ((g.sig * 2 ^ (-(f.exp - g.exp)).toNat : ℕ) : ℚ) := by
      push_cast
      rw [hp, ← hg, ← hf, F64.val, F64.val]
      calc (f.sig : ℚ) * ((g.sig : ℚ) * (2:ℚ) ^ (g.exp - 52))
          = ((f.sig : ℚ) * (g.sig : ℚ)) * (2:ℚ) ^ (g.exp - 52) := by ring
        _ = ((f.sig : ℚ) * (g.sig : ℚ)) *
            ((2:ℚ) ^ (g.exp - f.exp) * (2:ℚ) ^ (f.exp - 52)) := by rw [hzz]
        _ = (f.sig : ℚ) * (2:ℚ) ^ (f.exp - 52) *
            ((g.sig : ℚ) * (2:ℚ) ^ (g.exp - f.exp)) := by ring
    exact_mod_cast hq

/-- C9 counterexample: the claim ranges over every non-negative total, but
the code computes through float64.  At total `2 ^ 53 + 1`, perPage `1`
(and any page), the conversion of the total to binary64 rounds to
`2 ^ 53`, so `CalculatePagination` returns `2 ^ 53` while the exact
integer ceiling of the quotient is `2 ^ 53 + 1`. -/
theorem C9_pagination_float_counterexample :
    UserService.CalculatePagination (2 ^ 53 + 1) 1 1 = 2 ^ 53 ∧
    Int.ceil (((2 ^ 53 + 1 : ℕ) : ℚ) / ((1 : ℕ) : ℚ)) = 2 ^ 53 + 1 ∧
    UserService.CalculatePagination (2 ^ 53 + 1) 1 1 ≠
      Int.ceil (((2 ^ 53 + 1 : ℕ) : ℚ) / ((1 : ℕ) : ℚ)) := by
  have h1 : UserService.CalculatePagination (2 ^ 53 + 1) 1 1 = 2 ^ 53 := by decide
  have h2 : Int.ceil (((2 ^ 53 + 1 : ℕ) : ℚ) / ((1 : ℕ) : ℚ)) = 2 ^ 53 + 1 := by
    rw [Nat.cast_one, div_one, Int.ceil_natCast]
    push_cast
  refine ⟨h1, h2, ?_⟩
  rw [h1, h2]
  decide

/-- C9 (amended): for every total of at most `2 ^ 53` and every perPage of
at most `2 ^ 53` (with perPage ≤ 0 treated as 10 as the code does),
`CalculatePagination` equals the exact integer ceiling of total divided by
the effective perPage; out of that range the float64 conversions can
round, as the counterexample shows. -/
theorem C9_pagination_ceiling_amended (total : Nat) (page perPage : Int)
    (htot : total ≤ 2 ^ 53) (hpp : perPage ≤ 2 ^ 53) :
    UserService.CalculatePagination total page perPage =
      Int.ceil ((total : ℚ) /
        (((if perPage ≤ 0 then 10 else perPage) : ℤ) : ℚ)) := by
  unfold UserService.CalculatePagination
  dsimp only
  set pp : ℤ := if perPage ≤ 0 then 10 else perPage with hppdef
  have hpp1 : 1 ≤ pp := by
    rw [hppdef]
    split <;> omega
  have hpp53 : pp ≤ 2 ^ 53 := by
    rw [hppdef]
    split
    · norm_num
    · exact hpp
  have hppn1 : 1 ≤ pp.toNat := by omega
  have hppn53 : pp.toNat ≤ 2 ^ 53 := by omega
  have hcast : ((pp.toNat : ℕ) : ℚ) = ((pp : ℤ) : ℚ) := by
    have h1 : ((pp.toNat : ℕ) : ℤ) = pp := Int.toNat_of_nonneg (by omega)
    exact_mod_cast h1
  rw [F64.div_ceilInt _ _ total pp.toNat hppn1 htot
    (F64.ofNat_val total htot) (F64.ofNat_val pp.toNat hppn53)]
  rw [hcast]

/-- C9 amended witness: the spec's concrete instances — 0 rows with
perPage 10 give 0 pages and 25 rows with perPage 10 give 3 pages — at
concrete inputs of the amended theorem. -/
theorem C9_pagination_ceiling_amended_witness :
    UserService.CalculatePagination 25 1 10 =
      Int.ceil (((25 : ℕ) : ℚ) / (((if (10:ℤ) ≤ 0 then 10 else (10:ℤ)) : ℤ) : ℚ)) ∧
    UserService.CalculatePagination 25 1 10 = 3 ∧
    UserService.CalculatePagination 0 1 10 = 0 :=
  ⟨C9_pagination_ceiling_amended 25 1 10 (by norm_num) (by norm_num),
   by decide, by decide⟩

